import Mathlib

/-!
Verification of `source/appModules/soffice.py` (NVDA's appModule for
OpenOffice / LibreOffice / Symphony).

The development shallowly embeds the algorithmic parts of the module:

* `gridCoordStringToNumbers` (soffice.py lines 21-34): decodes a
  spreadsheet cell label such as "AB12" into a numeric (row, column) pair.
  Strings are modelled as lists of Unicode code points (`List Nat`), with
  ASCII semantics for `str.isdigit` / `str.upper` (cell labels are ASCII).

* `SymphonyTextInfo._getFormatFieldAndOffsets` (soffice.py lines 84-184):
  derives a structured format field from a raw IAccessible2 attribute
  mapping.  The raw attribute string is modelled by its parsed key/value
  list (the splitter `IAccessibleHandler.splitIA2Attribs` is external to
  this repository); COM calls are modelled as `Except Unit` valued fields
  of an explicit object-state record; a Python exception escaping the
  method is modelled by the whole function returning `Except.error ()`.

* `SymphonyTable.getSelectedItemsCount` (soffice.py lines 294-310).
-/

/-- Python `str.isdigit` for a code point, ASCII range (cell labels and
IA2 attribute values in this module are ASCII). -/
def pyIsDigit (c : Nat) : Bool := decide (48 ≤ c ∧ c ≤ 57)

/-- Python `str.upper` for a code point, ASCII range. -/
def pyUpper (c : Nat) : Nat := if 97 ≤ c ∧ c ≤ 122 then c - 32 else c

/-- ASCII letter test (A-Z or a-z). -/
def pyIsAlpha (c : Nat) : Bool := decide ((65 ≤ c ∧ c ≤ 90) ∨ (97 ≤ c ∧ c ≤ 122))

/-- `ord(ch.upper()) - ord('A') + 1` (soffice.py line 33). -/
def letterValue (c : Nat) : Int := (pyUpper c : Int) - 65 + 1

/-- Python `int` applied to a string of digit code points
(soffice.py line 31: `int(coordString[coordStringRowStartIndex:])`). -/
def digitsVal (l : List Nat) : Int := l.foldl (fun a c => a * 10 + ((c : Int) - 48)) 0

/-- The loop of soffice.py lines 32-33:
`for index, ch in enumerate(reversed(prefixPart)): colNum += (ord(ch.upper()) - ord('A') + 1) * 26 ** index`,
as a recursion over the reversed list carrying the running index and sum. -/
def colNumAux : List Nat → Nat → Int → Int
  | [], _, acc => acc
  | c :: rest, i, acc => colNumAux rest (i + 1) (acc + letterValue c * (26 : Int) ^ i)

/-- Column number computed by soffice.py lines 32-33 from the part of the
label before the trailing digit run. -/
def colNum (l : List Nat) : Int := colNumAux l.reverse 0 0

/-- The loop of soffice.py lines 27-30:
`for index, ch in enumerate(reversed(coordString)):` breaking at the first
non-digit with `coordStringRowStartIndex = len(coordString) - index`.
Returns the `index` of the first non-digit of the (already reversed) list,
or `Option.none` when every character is a digit (in which case Python
leaves `coordStringRowStartIndex = None`). -/
def rowStartIndexAux : List Nat → Nat → Option Nat
  | [], _ => Option.none
  | c :: rest, idx => if !pyIsDigit c then some idx else rowStartIndexAux rest (idx + 1)

/-- `gridCoordStringToNumbers` (soffice.py lines 21-34).  The `ValueError`
raised on a bad coordinate string is modelled as `Option.none`; the branch
where no non-digit exists is also `Option.none` (there Python would slice
with `None` and `int()` of the full string; the branch is unreachable for
strings passing the shape check, whose first character is not a digit). -/
def gridCoordStringToNumbers (s : List Nat) : Option (Int × Int) :=
  if s.isEmpty || decide (s.length < 2) || s.contains 32
      || pyIsDigit (s.headD 0) || !pyIsDigit (s.getLastD 0) then
    Option.none
  else
    match rowStartIndexAux s.reverse 0 with
    | Option.none => Option.none
    | some i => some (digitsVal (s.drop (s.length - i)), colNum (s.take (s.length - i)))

/-- Maximal trailing run of digit characters of a label (spec wording:
"scan the label from the end; the maximal trailing run of digit characters
is the row number"). -/
def trailingDigits (s : List Nat) : List Nat := (s.reverse.takeWhile pyIsDigit).reverse

/-- The part of the label before the maximal trailing digit run (spec
wording: "the prefix before that run is the column label"). -/
def labelLetterPart (s : List Nat) : List Nat := (s.reverse.dropWhile pyIsDigit).reverse

/-- Row number as the spec states it: the maximal trailing digit run
parsed as a base-10 integer. -/
def specRow (s : List Nat) : Int := digitsVal (trailingDigits s)

/-- Bijective base-26 value as the spec states it: the sum over the column
label, reading right to left, of `letterValue * 26 ^ position` where
`position` is 0 for the rightmost character; equivalently, in this
left-to-right recursion, the leading character is weighted by
`26 ^ (number of characters to its right)`. -/
def specColVal : List Nat → Int
  | [] => 0
  | c :: rest => letterValue c * (26 : Int) ^ rest.length + specColVal rest

/-- Column number as the spec states it. -/
def specCol (s : List Nat) : Int := specColVal (labelLetterPart s)

/-- The spec's input constraint on labels: non-empty, no space character,
does not start with a digit, ends with a digit. -/
def validLabel (s : List Nat) : Bool :=
  !s.isEmpty && !s.contains 32 && !pyIsDigit (s.headD 0) && pyIsDigit (s.getLastD 0)

/-- Two code points are equal up to ASCII letter case. -/
def charCaseEquiv (a b : Nat) : Bool :=
  a == b || (pyIsAlpha a && pyIsAlpha b && (pyUpper a == pyUpper b))

/-- `t` is `s` with some letters changed between upper and lower case. -/
def caseVariant (s t : List Nat) : Bool :=
  (s.length == t.length) && (s.zip t).all (fun p => charCaseEquiv p.1 p.2)

/-- A value in a parsed IA2 attribute mapping: a plain string, or a nested
sub-mapping (as produced for the `Numbering` attribute). -/
inductive AttrVal where
  | str (s : String)
  | sub (m : List (String × String))
deriving DecidableEq

/-- A parsed raw attribute string: key/value pairs. -/
abbrev RawAttrs := List (String × AttrVal)

/-- A value stored in a `textInfos.FormatField`. -/
inductive FVal where
  | str (s : String)
  | bool (b : Bool)
  | rgb (s : String)
  | sub (m : List (String × String))
  | null
deriving DecidableEq

/-- `textInfos.FormatField`, a Python dict, modelled as an ordered
association list with unique keys. -/
abbrev FormatField := List (String × FVal)

/-- Dict lookup: `d[k]` / `d.get(k)`. -/
def getKey : FormatField → String → Option FVal
  | [], _ => Option.none
  | (k', v) :: rest, k => if k' = k then some v else getKey rest k

/-- Dict assignment `d[k] = v`: replaces the value of an existing key in
place, otherwise appends (Python dicts preserve insertion order). -/
def setKey : FormatField → String → FVal → FormatField
  | [], k, v => [(k, v)]
  | (k', v') :: rest, k, v =>
    if k' = k then (k, v) :: rest else (k', v') :: setKey rest k v

/-- Dict key removal, the effect of `d.pop(k)` when the key is present. -/
def removeKey (ff : FormatField) (k : String) : FormatField :=
  ff.filter (fun p => decide (p.1 ≠ k))

/-- Lookup in a nested string-to-string mapping (`numbering.get(...)`,
`docAttribs[...]`). -/
def subGet : List (String × String) → String → Option String
  | [], _ => Option.none
  | (k', v) :: rest, k => if k' = k then some v else subGet rest k

/-- Python truthiness of a format-field value. -/
def truthy : FVal → Bool
  | FVal.str s => !s.isEmpty
  | FVal.bool b => b
  | FVal.rgb _ => true
  | FVal.sub m => !m.isEmpty
  | FVal.null => false

/-- Inject a raw attribute value into a format-field value. -/
def liftAttr : AttrVal → FVal
  | AttrVal.str s => FVal.str s
  | AttrVal.sub m => FVal.sub m

/-- `formatField.update(IAccessibleHandler.splitIA2Attribs(attribsString))`
(soffice.py line 98) starting from the empty `FormatField` of line 91. -/
def rawToFF (m : RawAttrs) : FormatField :=
  m.foldl (fun ff p => setKey ff p.1 (liftAttr p.2)) []

/-- Digit run to the number it denotes in base 10. -/
def digitsToNat (l : List Char) : Nat := l.foldl (fun a c => a * 10 + (c.toNat - 48)) 0

/-- Every character is an ASCII digit. -/
def allDigits (l : List Char) : Bool := l.all (fun c => decide (48 ≤ c.toNat ∧ c.toNat ≤ 57))

/-- Python `int(s)` on an attribute value, modelled for an optional sign
followed by decimal digits (surrounding whitespace and `_` separators do
not occur in IA2 attribute values); any other string raises `ValueError`,
modelled as `Option.none`. -/
def pyInt (s : String) : Option Int :=
  match s.data with
  | '-' :: rest => if allDigits rest && !rest.isEmpty then some (-(digitsToNat rest : Int)) else Option.none
  | '+' :: rest => if allDigits rest && !rest.isEmpty then some (digitsToNat rest : Int) else Option.none
  | l => if allDigits l && !l.isEmpty then some (digitsToNat l : Int) else Option.none

/-- Core of Python `float(s)`: decimal digits with an optional decimal
point, at least one digit; the value is returned as an exact rational
(IA2 attribute values are short decimals, for which `float` is exact
enough that the comparison with 100 agrees). -/
def pyFloatCore (l : List Char) : Option ℚ :=
  let ip := l.takeWhile (fun c => decide (c ≠ '.'))
  match l.drop ip.length with
  | [] => if allDigits ip && !ip.isEmpty then some (mkRat (digitsToNat ip) 1) else Option.none
  | _ :: fp =>
    if allDigits ip && allDigits fp && (!ip.isEmpty || !fp.isEmpty) then
      some (mkRat (digitsToNat ip * 10 ^ fp.length + digitsToNat fp) (10 ^ fp.length))
    else Option.none

/-- Python `float(s)` on an attribute value; a malformed string raises
`ValueError`, modelled as `Option.none`. -/
def pyFloat (s : String) : Option ℚ :=
  match s.data with
  | '-' :: rest => (pyFloatCore rest).map (fun q => -q)
  | '+' :: rest => pyFloatCore rest
  | l => pyFloatCore l

/-- Python `str(v)` for the `"%spt" % ...` formatting of soffice.py line
116 (the value under `CharHeight` is always a plain string in practice;
the remaining cases are included only to keep the function total). -/
def pyStrFV : FVal → String
  | FVal.str s => s
  | FVal.bool b => if b then "True" else "False"
  | FVal.rgb s => s
  | FVal.sub _ => "dict"
  | FVal.null => "None"

/-- Modelled from the spec: `colors.RGB.fromString` is external to this
repository; the spec says "foreground-color (color-string) | parse to RGB".
The parsed colour is represented abstractly as a tagged value retaining the
source string. -/
def rgbFromString (s : String) : FVal := FVal.rgb s

/-- soffice.py lines 100-110: `CharEscapement` to `text-position`.
`except KeyError: pass` skips a missing key only; `int()` of a present but
non-numeric value raises `ValueError` (and of a sub-mapping `TypeError`),
which escapes the method: `Except.error ()`. -/
def stepTextPosition (ff : FormatField) : Except Unit FormatField :=
  match getKey ff "CharEscapement" with
  | Option.none => Except.ok ff
  | some (FVal.str s) =>
    match pyInt s with
    | Option.none => Except.error ()
    | some n =>
      Except.ok (setKey ff "text-position"
        (FVal.str (if n < 0 then "sub" else if n > 0 then "super" else "baseline")))
  | some _ => Except.error ()

/-- soffice.py lines 111-114: copy `CharFontName` to `font-name`. -/
def stepFontName (ff : FormatField) : FormatField :=
  match getKey ff "CharFontName" with
  | Option.none => ff
  | some v => setKey ff "font-name" v

/-- soffice.py lines 115-118: `font-size = "%spt" % CharHeight`. -/
def stepFontSize (ff : FormatField) : FormatField :=
  match getKey ff "CharHeight" with
  | Option.none => ff
  | some v => setKey ff "font-size" (FVal.str (pyStrFV v ++ "pt"))

/-- soffice.py lines 119-122: `italic = (CharPosture == "2")`. -/
def stepItalic (ff : FormatField) : FormatField :=
  match getKey ff "CharPosture" with
  | Option.none => ff
  | some v => setKey ff "italic" (FVal.bool (decide (v = FVal.str "2")))

/-- soffice.py lines 123-126: `strikethrough = (CharStrikeout == "1")`. -/
def stepStrikethrough (ff : FormatField) : FormatField :=
  match getKey ff "CharStrikeout" with
  | Option.none => ff
  | some v => setKey ff "strikethrough" (FVal.bool (decide (v = FVal.str "1")))

/-- soffice.py lines 127-135: `CharUnderline`; the WAVE code "10" marks a
spelling error, any other code sets `underline = (code != "0")`. -/
def stepUnderline (ff : FormatField) : FormatField :=
  match getKey ff "CharUnderline" with
  | Option.none => ff
  | some u =>
    if u = FVal.str "10" then setKey ff "invalid-spelling" (FVal.bool true)
    else setKey ff "underline" (FVal.bool (decide (u ≠ FVal.str "0")))

/-- soffice.py lines 136-139: `bold = float(CharWeight) > 100`; `float()`
of a present but malformed value raises, escaping the method. -/
def stepBold (ff : FormatField) : Except Unit FormatField :=
  match getKey ff "CharWeight" with
  | Option.none => Except.ok ff
  | some (FVal.str s) =>
    match pyFloat s with
    | Option.none => Except.error ()
    | some q => Except.ok (setKey ff "bold" (FVal.bool (decide (100 < q))))
  | some _ => Except.error ()

/-- soffice.py lines 140-145: pop `CharColor` (KeyError caught, yielding
`None`); when truthy, parse it to `color`. -/
def stepColor (ff : FormatField) : Except Unit FormatField :=
  match getKey ff "CharColor" with
  | Option.none => Except.ok ff
  | some v =>
    let ff := removeKey ff "CharColor"
    if truthy v then
      match v with
      | FVal.str s => Except.ok (setKey ff "color" (rgbFromString s))
      | _ => Except.error ()
    else Except.ok ff

/-- soffice.py lines 146-151: pop `CharBackColor`; when truthy, parse it
to `background-color`. -/
def stepBackColor (ff : FormatField) : Except Unit FormatField :=
  match getKey ff "CharBackColor" with
  | Option.none => Except.ok ff
  | some v =>
    let ff := removeKey ff "CharBackColor"
    if truthy v then
      match v with
      | FVal.str s => Except.ok (setKey ff "background-color" (rgbFromString s))
      | _ => Except.error ()
    else Except.ok ff

/-- The relevant state of the `SymphonyTextInfo`'s object and of the COM
interfaces it queries.  COM calls that may raise `COMError` are modelled
as `Except Unit` results; the absent-`treeInterceptor` `AttributeError` of
soffice.py lines 169-173 is modelled by `docAttribs = Option.none`. -/
structure TextObjState where
  attributes : Nat → Except Unit (Int × Int × RawAttrs)
  hyperlinkIndex : Nat → Except Unit Int
  hasFocus : Bool
  docAttribs : Option (List (String × String))
  startOffsetFallback : Int
  endOffsetFallback : Int

/-- soffice.py lines 153-158: `link = True` when the hyperlink index at
the offset is not -1; a `COMError` is swallowed. -/
def stepLink (ff : FormatField) (st : TextObjState) (offset : Nat) : FormatField :=
  match st.hyperlinkIndex offset with
  | Except.error _ => ff
  | Except.ok i => if i ≠ -1 then setKey ff "link" (FVal.bool true) else ff

/-- soffice.py lines 160-164: only at offset 0, a truthy `Numbering`
sub-mapping yields `line-prefix = NumberingPrefix or BulletChar` (Python
`or`: the second operand, possibly `None`, when the first is falsy).
`.get` on a non-mapping value would raise `AttributeError`. -/
def stepNumbering (ff : FormatField) (offset : Nat) : Except Unit FormatField :=
  if offset = 0 then
    match getKey ff "Numbering" with
    | Option.none => Except.ok ff
    | some v =>
      if truthy v then
        match v with
        | FVal.sub m =>
          let lp : FVal :=
            match subGet m "NumberingPrefix" with
            | some p =>
              if !p.isEmpty then FVal.str p
              else match subGet m "BulletChar" with
                   | some b => FVal.str b
                   | Option.none => FVal.null
            | Option.none =>
              match subGet m "BulletChar" with
              | some b => FVal.str b
              | Option.none => FVal.null
          Except.ok (setKey ff "line-prefix" lp)
        | _ => Except.error ()
      else Except.ok ff
  else Except.ok ff

/-- soffice.py lines 166-183: when the object has focus and a tree
interceptor exists, copy `page-number` / `line-number` from the document
attributes (missing keys skipped). -/
def stepDocAttribs (ff : FormatField) (st : TextObjState) : FormatField :=
  if st.hasFocus then
    match st.docAttribs with
    | Option.none => ff
    | some da =>
      let ff :=
        match subGet da "page-number" with
        | some v => setKey ff "page-number" (FVal.str v)
        | Option.none => ff
      match subGet da "line-number" with
      | some v => setKey ff "line-number" (FVal.str v)
      | Option.none => ff
  else ff

/-- soffice.py lines 97-184: the derivation pipeline applied to a resolved
raw attribute mapping.  An uncaught Python exception in any step aborts
the whole method (`Except.error ()`). -/
def deriveFormatField (attribs : RawAttrs) (st : TextObjState) (offset : Nat) :
    Except Unit FormatField :=
  match stepTextPosition (rawToFF attribs) with
  | Except.error e => Except.error e
  | Except.ok ff =>
    match stepBold (stepUnderline (stepStrikethrough (stepItalic (stepFontSize (stepFontName ff))))) with
    | Except.error e => Except.error e
    | Except.ok ff =>
      match stepColor ff with
      | Except.error e => Except.error e
      | Except.ok ff =>
        match stepBackColor ff with
        | Except.error e => Except.error e
        | Except.ok ff =>
          match stepNumbering (stepLink ff st offset) offset with
          | Except.error e => Except.error e
          | Except.ok ff => Except.ok (stepDocAttribs ff st)

/-- `SymphonyTextInfo._getFormatFieldAndOffsets` (soffice.py lines 84-184).
A `COMError` from the initial `attributes(offset)` call returns an empty
format field with the fallback offsets (lines 88-90); when the attribute
string is empty and `offset > 0`, the previous offset's attribute string
is used instead, a `COMError` there being swallowed (lines 92-96). -/
def getFormatFieldAndOffsets (st : TextObjState) (offset : Nat) :
    Except Unit (FormatField × Int × Int) :=
  match st.attributes offset with
  | Except.error _ => Except.ok ([], st.startOffsetFallback, st.endOffsetFallback)
  | Except.ok (startOffset, endOffset, attribsString) =>
    let attribsString :=
      if attribsString.isEmpty && decide (0 < offset) then
        match st.attributes (offset - 1) with
        | Except.ok (_, _, prev) => prev
        | Except.error _ => attribsString
      else attribsString
    (deriveFormatField attribsString st offset).map (fun ff => (ff, startOffset, endOffset))

/-- `SymphonyTable.getSelectedItemsCount` (soffice.py lines 294-310): the
`nSelectedCells` COM property is the argument (`Except.error` = `COMError`);
the unused `maxCount` parameter is omitted.  The method itself never
raises: a `COMError` falls through to `return 1`, as does a non-positive
count. -/
def getSelectedItemsCount (nSelectedCells : Except Unit Int) : Int :=
  match nSelectedCells with
  | Except.ok count => if 0 < count then count else 1
  | Except.error _ => 1

/-- An object state with no hyperlink information, no focus and no
document attributes, used to evaluate the derivation on concrete inputs. -/
def st0 : TextObjState :=
  ⟨fun _ => Except.error (), fun _ => Except.error (), false, Option.none, 0, 0⟩

/-- An object state whose attribute run at offset 0 is non-empty and whose
run at every later offset is the empty attribute string. -/
def st9 : TextObjState :=
  ⟨fun o => if o = 0 then Except.ok (5, 9, [("CharFontName", AttrVal.str "F")]) else Except.ok (1, 2, []),
   fun _ => Except.error (), false, Option.none, 0, 0⟩

/-- The output keys written (or removed) by the derivation steps of
soffice.py lines 100-184, together with the two popped source keys. -/
def reservedKeys : List String :=
  ["text-position", "font-name", "font-size", "italic", "strikethrough",
   "underline", "invalid-spelling", "bold", "color", "background-color",
   "link", "line-prefix", "page-number", "line-number",
   "CharColor", "CharBackColor"]

theorem colNumAux_append (xs ys : List Nat) :
    ∀ (i : Nat) (acc : Int), colNumAux (xs ++ ys) i acc = colNumAux ys (i + xs.length) (colNumAux xs i acc) := by
  induction xs with
  | nil => intro i acc; simp [colNumAux]
  | cons c rest ih =>
    intro i acc
    show colNumAux (rest ++ ys) (i + 1) (acc + letterValue c * (26 : Int) ^ i) =
      colNumAux ys (i + (rest.length + 1)) (colNumAux rest (i + 1) (acc + letterValue c * (26 : Int) ^ i))
    rw [ih]
    congr 1
    omega

theorem colNum_eq_specColVal (l : List Nat) : colNum l = specColVal l := by
  induction l with
  | nil => rfl
  | cons c rest ih =>
    show colNumAux (c :: rest).reverse 0 0 = specColVal (c :: rest)
    rw [List.reverse_cons, colNumAux_append]
    simp only [colNumAux, List.length_reverse, Nat.zero_add, specColVal]
    rw [show colNumAux rest.reverse 0 0 = colNum rest from rfl, ih]
    ring

theorem rowStartIndexAux_spec :
    ∀ (l : List Nat) (idx i : Nat), rowStartIndexAux l idx = some i →
      idx ≤ i ∧ l.take (i - idx) = l.takeWhile pyIsDigit ∧ l.drop (i - idx) = l.dropWhile pyIsDigit := by
  intro l
  induction l with
  | nil => intro idx i h; simp [rowStartIndexAux] at h
  | cons c rest ih =>
    intro idx i h
    cases hc : pyIsDigit c with
    | false =>
      simp [rowStartIndexAux, hc] at h
      subst h
      refine ⟨Nat.le_refl _, ?_, ?_⟩
      · simp [List.takeWhile_cons, hc]
      · simp [List.dropWhile_cons, hc]
    | true =>
      simp [rowStartIndexAux, hc] at h
      obtain ⟨hle, htake, hdrop⟩ := ih (idx + 1) i h
      have hi : i - idx = (i - (idx + 1)) + 1 := by omega
      refine ⟨by omega, ?_, ?_⟩
      · rw [hi]
        simp [List.takeWhile_cons, hc, htake]
      · rw [hi]
        simp [List.dropWhile_cons, hc, hdrop]

theorem rowStartIndexAux_isSome :
    ∀ (l : List Nat) (idx : Nat), (∃ c ∈ l, pyIsDigit c = false) →
      (rowStartIndexAux l idx).isSome := by
  intro l
  induction l with
  | nil => intro idx h; simp at h
  | cons c rest ih =>
    intro idx h
    cases hc : pyIsDigit c with
    | false => simp [rowStartIndexAux, hc]
    | true =>
      simp only [rowStartIndexAux, hc, Bool.not_true]
      rw [if_neg (by simp)]
      apply ih
      obtain ⟨x, hx, hxd⟩ := h
      rcases List.mem_cons.mp hx with rfl | hx
      · rw [hc] at hxd; exact absurd hxd (by simp)
      · exact ⟨x, hx, hxd⟩

theorem validLabel_length (s : List Nat) (hv : validLabel s = true) : 2 ≤ s.length := by
  match s with
  | [] => simp [validLabel] at hv
  | [a] =>
    simp [validLabel, List.headD, List.getLastD] at hv
    exact absurd hv.2 (by simp [hv.1.2])
  | a :: b :: t => simp [List.length_cons]

theorem decode_valid (s : List Nat) (hv : validLabel s = true) :
    gridCoordStringToNumbers s = some (specRow s, specCol s) := by
  have hparts := hv
  simp only [validLabel, Bool.and_eq_true, Bool.not_eq_true'] at hparts
  obtain ⟨⟨⟨he, hc32⟩, hh⟩, hl⟩ := hparts
  have hlen : ¬ s.length < 2 := by have := validLabel_length s hv; omega
  obtain ⟨a, t, rfl⟩ : ∃ a t, s = a :: t := by
    cases s with
    | nil => simp at he
    | cons a t => exact ⟨a, t, rfl⟩
  set s := a :: t with hs
  have hmem : a ∈ s.reverse := by rw [List.mem_reverse]; exact List.mem_cons_self a t
  have hha : pyIsDigit a = false := by simpa [hs, List.headD] using hh
  have hsome := rowStartIndexAux_isSome s.reverse 0 ⟨a, hmem, hha⟩
  obtain ⟨i, hi⟩ := Option.isSome_iff_exists.mp hsome
  obtain ⟨-, htake, hdrop⟩ := rowStartIndexAux_spec s.reverse 0 i hi
  simp only [Nat.sub_zero] at htake hdrop
  rw [gridCoordStringToNumbers]
  rw [if_neg (by rw [he, hc32, hh, hl, decide_eq_false hlen]; simp)]
  rw [hi]
  show some (digitsVal (s.drop (s.length - i)), colNum (s.take (s.length - i)))
      = some (specRow s, specCol s)
  have hrt : s.drop (s.length - i) = trailingDigits s := by
    rw [show s.drop (s.length - i) = List.rtake s i from rfl,
      List.rtake_eq_reverse_take_reverse, htake, trailingDigits]
  have hrd : s.take (s.length - i) = labelLetterPart s := by
    rw [show s.take (s.length - i) = List.rdrop s i from rfl,
      List.rdrop_eq_reverse_drop_reverse, hdrop, labelLetterPart]
  rw [hrt, hrd, colNum_eq_specColVal]
  rfl

theorem decode_none_iff (s : List Nat) :
    gridCoordStringToNumbers s = Option.none ↔ validLabel s = false := by
  constructor
  · intro h
    by_contra hvalid
    have hv : validLabel s = true := by
      cases hvb : validLabel s
      · exact absurd hvb hvalid
      · rfl
    rw [decode_valid s hv] at h
    simp at h
  · intro hv
    cases h1 : s.isEmpty <;> cases h2 : s.contains 32 <;>
      cases h3 : pyIsDigit (s.headD 0) <;> cases h4 : pyIsDigit (s.getLastD 0) <;>
      simp_all [validLabel, gridCoordStringToNumbers]

theorem cce_elim {a b : Nat} (h : charCaseEquiv a b = true) :
    a = b ∨ (pyIsAlpha a = true ∧ pyIsAlpha b = true ∧ pyUpper a = pyUpper b) := by
  simpa [charCaseEquiv, Bool.or_eq_true, Bool.and_eq_true, beq_iff_eq, and_assoc] using h

theorem alpha_not_digit {c : Nat} (h : pyIsAlpha c = true) : pyIsDigit c = false := by
  simp only [pyIsAlpha, decide_eq_true_eq] at h
  simp only [pyIsDigit, decide_eq_false_iff_not]
  omega

theorem alpha_upper_range {c : Nat} (h : pyIsAlpha c = true) :
    65 ≤ pyUpper c ∧ pyUpper c ≤ 90 := by
  simp only [pyIsAlpha, decide_eq_true_eq] at h
  rw [pyUpper]
  split <;> omega

theorem cce_digit {a b : Nat} (h : charCaseEquiv a b = true) : pyIsDigit a = pyIsDigit b := by
  rcases cce_elim h with rfl | ⟨ha, hb, -⟩
  · rfl
  · rw [alpha_not_digit ha, alpha_not_digit hb]

theorem cce_upper {a b : Nat} (h : charCaseEquiv a b = true) : pyUpper a = pyUpper b := by
  rcases cce_elim h with rfl | ⟨-, -, hu⟩
  · rfl
  · exact hu

theorem cce_digit_eq {a b : Nat} (h : charCaseEquiv a b = true) (hd : pyIsDigit a = true) :
    a = b := by
  rcases cce_elim h with rfl | ⟨ha, -, -⟩
  · rfl
  · rw [alpha_not_digit ha] at hd; cases hd

theorem cce_32 {a b : Nat} (h : charCaseEquiv a b = true) : a = 32 ↔ b = 32 := by
  rcases cce_elim h with rfl | ⟨ha, hb, -⟩
  · exact Iff.rfl
  · simp only [pyIsAlpha, decide_eq_true_eq] at ha hb
    constructor <;> intro h32 <;> omega

theorem caseVariant_iff (s : List Nat) :
    ∀ t : List Nat, caseVariant s t = true ↔
      List.Forall₂ (fun a b => charCaseEquiv a b = true) s t := by
  induction s with
  | nil =>
    intro t
    cases t <;> simp [caseVariant]
  | cons a s ih =>
    intro t
    cases t with
    | nil => simp [caseVariant]
    | cons b t =>
      simp only [caseVariant, List.length_cons, List.zip_cons_cons, List.all_cons,
        List.forall₂_cons, Bool.and_eq_true, beq_iff_eq, Nat.add_right_cancel_iff]
      constructor
      · rintro ⟨hlen, hab, hall⟩
        exact ⟨hab, (ih t).mp (by simp [caseVariant, hlen, hall])⟩
      · rintro ⟨hab, htl⟩
        have := (ih t).mpr htl
        simp only [caseVariant, Bool.and_eq_true, beq_iff_eq] at this
        exact ⟨this.1, hab, this.2⟩

theorem cce_contains32 {s t : List Nat}
    (h : List.Forall₂ (fun a b => charCaseEquiv a b = true) s t) :
    s.contains 32 = t.contains 32 := by
  induction h with
  | nil => rfl
  | @cons a b s t hab htl ih =>
    simp only [List.contains_cons]
    rw [ih]
    congr 1
    by_cases h32 : a = 32
    · have hb32 : b = 32 := (cce_32 hab).mp h32
      simp [eq_comm, h32, hb32]
    · have hb32 : ¬ b = 32 := fun hb => h32 ((cce_32 hab).mpr hb)
      simp [eq_comm, h32, hb32]

theorem cce_takeWhile {s t : List Nat}
    (h : List.Forall₂ (fun a b => charCaseEquiv a b = true) s t) :
    s.takeWhile pyIsDigit = t.takeWhile pyIsDigit := by
  induction h with
  | nil => rfl
  | @cons a b s t hab htl ih =>
    cases hd : pyIsDigit a with
    | true =>
      have hb : pyIsDigit b = true := (cce_digit hab) ▸ hd
      have hab' : a = b := cce_digit_eq hab hd
      simp [List.takeWhile_cons, hd, hb, ih, hab']
    | false =>
      have hb : pyIsDigit b = false := (cce_digit hab) ▸ hd
      simp [List.takeWhile_cons, hd, hb]

theorem cce_dropWhile {s t : List Nat}
    (h : List.Forall₂ (fun a b => charCaseEquiv a b = true) s t) :
    List.Forall₂ (fun a b => charCaseEquiv a b = true)
      (s.dropWhile pyIsDigit) (t.dropWhile pyIsDigit) := by
  induction h with
  | nil => exact List.Forall₂.nil
  | @cons a b s t hab htl ih =>
    cases hd : pyIsDigit a with
    | true =>
      have hb : pyIsDigit b = true := (cce_digit hab) ▸ hd
      simpa [List.dropWhile_cons, hd, hb] using ih
    | false =>
      have hb : pyIsDigit b = false := (cce_digit hab) ▸ hd
      have hcons : List.Forall₂ (fun a b => charCaseEquiv a b = true) (a :: s) (b :: t) :=
        List.Forall₂.cons hab htl
      simpa [List.dropWhile_cons, hd, hb] using hcons

theorem cce_specColVal {s t : List Nat}
    (h : List.Forall₂ (fun a b => charCaseEquiv a b = true) s t) :
    specColVal s = specColVal t := by
  induction h with
  | nil => rfl
  | @cons a b s t hab htl ih =>
    simp only [specColVal, ih, htl.length_eq, letterValue, cce_upper hab]

theorem getLastD_eq_reverse_headD (l : List Nat) : l.getLastD 0 = l.reverse.headD 0 := by
  induction l using List.reverseRecOn with
  | nil => rfl
  | append_singleton xs x ih => simp

theorem cce_headD_digit {s t : List Nat}
    (h : List.Forall₂ (fun a b => charCaseEquiv a b = true) s t) :
    pyIsDigit (s.headD 0) = pyIsDigit (t.headD 0) := by
  cases h with
  | nil => rfl
  | cons hab htl => exact cce_digit hab

theorem cce_valid {s t : List Nat}
    (h : List.Forall₂ (fun a b => charCaseEquiv a b = true) s t) :
    validLabel s = validLabel t := by
  have hrev := List.forall₂_reverse_iff.mpr h
  have hemp : s.isEmpty = t.isEmpty := by
    cases h with
    | nil => rfl
    | cons hab htl => rfl
  rw [validLabel, validLabel, hemp, cce_contains32 h, cce_headD_digit h,
    getLastD_eq_reverse_headD s, getLastD_eq_reverse_headD t, cce_headD_digit hrev]

theorem decode_caseVariant {s t : List Nat}
    (h : List.Forall₂ (fun a b => charCaseEquiv a b = true) s t) :
    gridCoordStringToNumbers s = gridCoordStringToNumbers t := by
  by_cases hv : validLabel s = true
  · have hvt : validLabel t = true := (cce_valid h) ▸ hv
    rw [decode_valid s hv, decode_valid t hvt]
    have hrev := List.forall₂_reverse_iff.mpr h
    have h1 : trailingDigits s = trailingDigits t := by
      rw [trailingDigits, trailingDigits, cce_takeWhile hrev]
    have h2 : specCol s = specCol t := by
      rw [specCol, specCol, labelLetterPart, labelLetterPart]
      exact cce_specColVal (List.forall₂_reverse_iff.mpr (cce_dropWhile hrev))
    rw [specRow, specRow, h1, h2]
  · have hvs : validLabel s = false := by
      cases hvb : validLabel s
      · rfl
      · exact absurd hvb hv
    have hvt : validLabel t = false := (cce_valid h) ▸ hvs
    rw [(decode_none_iff s).mpr hvs, (decode_none_iff t).mpr hvt]

theorem digitsVal_nonneg_aux :
    ∀ (l : List Nat) (acc : Int), (∀ c ∈ l, pyIsDigit c = true) → 0 ≤ acc →
      0 ≤ l.foldl (fun a c => a * 10 + ((c : Int) - 48)) acc := by
  intro l
  induction l with
  | nil => intro acc _ hacc; simpa using hacc
  | cons c rest ih =>
    intro acc h hacc
    show 0 ≤ rest.foldl (fun a c => a * 10 + ((c : Int) - 48)) (acc * 10 + ((c : Int) - 48))
    apply ih _ (fun x hx => h x (List.mem_cons_of_mem c hx))
    have hc : 48 ≤ c := by
      have := h c (List.mem_cons_self c rest)
      simp only [pyIsDigit, decide_eq_true_eq] at this
      omega
    have : (0 : Int) ≤ acc * 10 := by positivity
    omega

theorem digitsVal_nonneg (l : List Nat) (h : ∀ c ∈ l, pyIsDigit c = true) :
    0 ≤ digitsVal l :=
  digitsVal_nonneg_aux l 0 h le_rfl

theorem specColVal_nonneg (l : List Nat) (h : ∀ c ∈ l, pyIsAlpha c = true) :
    0 ≤ specColVal l := by
  induction l with
  | nil => simp [specColVal]
  | cons c rest ih =>
    have hv : 1 ≤ letterValue c := by
      have := alpha_upper_range (h c (List.mem_cons_self c rest))
      rw [letterValue]; omega
    have hrest : 0 ≤ specColVal rest := ih (fun x hx => h x (List.mem_cons_of_mem c hx))
    have hpow : (1 : Int) ≤ (26 : Int) ^ rest.length := one_le_pow₀ (by norm_num)
    rw [specColVal]
    nlinarith

theorem specColVal_pos (l : List Nat) (hne : l ≠ []) (h : ∀ c ∈ l, pyIsAlpha c = true) :
    1 ≤ specColVal l := by
  match l with
  | c :: rest =>
    have hv : 1 ≤ letterValue c := by
      have := alpha_upper_range (h c (List.mem_cons_self c rest))
      rw [letterValue]; omega
    have hrest : 0 ≤ specColVal rest := specColVal_nonneg rest
      (fun x hx => h x (List.mem_cons_of_mem c hx))
    have hpow : (1 : Int) ≤ (26 : Int) ^ rest.length := one_le_pow₀ (by norm_num)
    rw [specColVal]
    nlinarith

theorem decode_some_valid (s : List Nat) (p : Int × Int)
    (h : gridCoordStringToNumbers s = some p) : validLabel s = true := by
  cases hv : validLabel s
  · rw [(decode_none_iff s).mpr hv] at h; cases h
  · rfl

/-- Claim C1: for every label satisfying the input constraint (non-empty, no
space character, does not start with a digit, ends with a digit), decode
returns the pair whose row is the maximal trailing run of digit characters
parsed as a base-10 integer and whose column is the prefix before that run
interpreted as bijective base-26 (A=1, Z=26, AA=27, ...); in particular
decode "A1" = (1, 1), decode "Z1" = (1, 26), decode "AA1" = (1, 27) and
decode "B12" = (12, 2) (labels given as code points). -/
theorem c1_decode_refines_spec :
    (∀ s : List Nat, validLabel s = true →
      gridCoordStringToNumbers s = some (specRow s, specCol s))
    ∧ gridCoordStringToNumbers [65, 49] = some (1, 1)
    ∧ gridCoordStringToNumbers [90, 49] = some (1, 26)
    ∧ gridCoordStringToNumbers [65, 65, 49] = some (1, 27)
    ∧ gridCoordStringToNumbers [66, 49, 50] = some (12, 2) :=
  ⟨fun s hv => decode_valid s hv, by decide, by decide, by decide, by decide⟩

/-- Witness for C1 at the concrete label "B12". -/
theorem c1_decode_refines_spec_witness :
    validLabel [66, 49, 50] = true ∧
      gridCoordStringToNumbers [66, 49, 50] = some (specRow [66, 49, 50], specCol [66, 49, 50]) :=
  ⟨by decide, c1_decode_refines_spec.1 [66, 49, 50] (by decide)⟩

/-- Claim C5: decode fails (raises `ValueError`, modelled as `Option.none`)
if and only if the label is empty, contains a space, starts with a digit,
or does not end with a digit; in particular "", "1A", "A B1" and "AB" all
fail.  (The source's additional `len(coordString) < 2` test rejects nothing
extra: a one-character label either starts with a digit or fails to end
with one.) -/
theorem c5_decode_failure_iff_shape :
    (∀ s : List Nat, gridCoordStringToNumbers s = Option.none ↔
      (s = [] ∨ s.contains 32 = true ∨ pyIsDigit (s.headD 0) = true ∨
        pyIsDigit (s.getLastD 0) = false))
    ∧ gridCoordStringToNumbers [] = Option.none
    ∧ gridCoordStringToNumbers [49, 65] = Option.none
    ∧ gridCoordStringToNumbers [65, 32, 66, 49] = Option.none
    ∧ gridCoordStringToNumbers [65, 66] = Option.none := by
  refine ⟨?_, by decide, by decide, by decide, by decide⟩
  intro s
  rw [decode_none_iff, validLabel]
  cases h1 : s.isEmpty <;> cases h2 : s.contains 32 <;>
    cases h3 : pyIsDigit (s.headD 0) <;> cases h4 : pyIsDigit (s.getLastD 0) <;>
    simp_all [List.isEmpty_iff]

/-- Witness for C5 at the concrete label "1A". -/
theorem c5_decode_failure_iff_shape_witness :
    gridCoordStringToNumbers [49, 65] = Option.none :=
  (c5_decode_failure_iff_shape.1 [49, 65]).mpr (by decide)

/-- Claim C7 counterexample: the label "A0" meets the input constraint and
decodes to row 0 (not ≥ 1), and the label "!1" meets the input constraint
and decodes to column -31 (not ≥ 1): the claimed positivity of both fields
fails on the code. -/
theorem c7_counterexample :
    gridCoordStringToNumbers [65, 48] = some (0, 1) ∧
      gridCoordStringToNumbers [33, 49] = some (1, -31) :=
  ⟨by decide, by decide⟩

/-- Claim C7 as amended: for every accepted label the row is non-negative
(a trailing digit run such as "0" parses to 0), and the column is positive
provided every character of the prefix before the trailing digit run is an
ASCII letter. -/
theorem c7_row_nonneg_col_pos :
    ∀ (s : List Nat) (r c : Int), gridCoordStringToNumbers s = some (r, c) →
      0 ≤ r ∧ ((∀ x ∈ labelLetterPart s, pyIsAlpha x = true) → 1 ≤ c) := by
  intro s r c h
  have hv := decode_some_valid s (r, c) h
  rw [decode_valid s hv] at h
  have hpair : specRow s = r ∧ specCol s = c := by
    have h' : (specRow s, specCol s) = (r, c) := by
      injection h
    exact ⟨congrArg Prod.fst h', congrArg Prod.snd h'⟩
  obtain ⟨hr, hc⟩ := hpair
  constructor
  · rw [← hr, specRow]
    apply digitsVal_nonneg
    intro x hx
    rw [trailingDigits, List.mem_reverse] at hx
    exact List.mem_takeWhile_imp hx
  · intro hall
    rw [← hc, specCol]
    apply specColVal_pos _ ?_ hall
    have hparts := hv
    simp only [validLabel, Bool.and_eq_true, Bool.not_eq_true'] at hparts
    obtain ⟨⟨⟨he, -⟩, hh⟩, -⟩ := hparts
    obtain ⟨a, t, rfl⟩ : ∃ a t, s = a :: t := by
      cases s with
      | nil => simp at he
      | cons a t => exact ⟨a, t, rfl⟩
    intro hnil
    rw [labelLetterPart, List.reverse_eq_nil_iff] at hnil
    have hall' := List.dropWhile_eq_nil_iff.mp hnil
    have hha : pyIsDigit a = true := by
      have := hall' a (by rw [List.mem_reverse]; exact List.mem_cons_self a t)
      exact this
    simp [List.headD] at hh
    rw [hh] at hha
    cases hha

/-- Witness for the amended C7 at the concrete label "A0". -/
theorem c7_row_nonneg_col_pos_witness :
    0 ≤ (0 : Int) ∧ ((∀ x ∈ labelLetterPart [65, 48], pyIsAlpha x = true) → 1 ≤ (1 : Int)) :=
  c7_row_nonneg_col_pos [65, 48] 0 1 (by decide)

/-- Claim C8: decoding is case-insensitive: changing any letters of a label
between upper and lower case leaves the decoded result unchanged (for
accepted and rejected labels alike); in particular decode "a1" = decode "A1". -/
theorem c8_decode_case_insensitive :
    ∀ s t : List Nat, caseVariant s t = true →
      gridCoordStringToNumbers s = gridCoordStringToNumbers t :=
  fun s t h => decode_caseVariant ((caseVariant_iff s t).mp h)

/-- Witness for C8: "a1" and "A1" decode identically. -/
theorem c8_decode_case_insensitive_witness :
    gridCoordStringToNumbers [97, 49] = gridCoordStringToNumbers [65, 49] :=
  c8_decode_case_insensitive [97, 49] [65, 49] (by decide)

theorem getKey_setKey_same (ff : FormatField) (k : String) (v : FVal) :
    getKey (setKey ff k v) k = some v := by
  induction ff with
  | nil => simp [setKey, getKey]
  | cons p rest ih =>
    obtain ⟨k1, v1⟩ := p
    by_cases hk : k1 = k
    · rw [setKey, if_pos hk]
      simp [getKey]
    · rw [setKey, if_neg hk, getKey, if_neg hk]
      exact ih

theorem getKey_setKey_other (ff : FormatField) (k : String) (v : FVal) (k' : String)
    (h : k' ≠ k) : getKey (setKey ff k v) k' = getKey ff k' := by
  induction ff with
  | nil =>
    simp only [setKey, getKey, if_neg (fun hh : k = k' => h hh.symm)]
  | cons p rest ih =>
    obtain ⟨k1, v1⟩ := p
    by_cases hk : k1 = k
    · rw [setKey, if_pos hk]
      rw [getKey, if_neg (fun hh : k = k' => h hh.symm), getKey,
        if_neg (fun hh : k1 = k' => h (hh ▸ hk ▸ rfl))]
    · rw [setKey, if_neg hk]
      by_cases hk' : k1 = k'
      · rw [getKey, if_pos hk', getKey, if_pos hk']
      · rw [getKey, if_neg hk', getKey, if_neg hk']
        exact ih

theorem getKey_removeKey_same (ff : FormatField) (k : String) :
    getKey (removeKey ff k) k = Option.none := by
  induction ff with
  | nil => rfl
  | cons p rest ih =>
    obtain ⟨k1, v1⟩ := p
    by_cases hk : k1 = k
    · simp only [removeKey, List.filter_cons]
      rw [if_neg (by simp [hk])]
      exact ih
    · simp only [removeKey, List.filter_cons]
      rw [if_pos (by simp [hk])]
      rw [getKey, if_neg hk]
      exact ih

theorem getKey_removeKey_other (ff : FormatField) (k : String) (k' : String)
    (h : k' ≠ k) : getKey (removeKey ff k) k' = getKey ff k' := by
  induction ff with
  | nil => rfl
  | cons p rest ih =>
    obtain ⟨k1, v1⟩ := p
    by_cases hk : k1 = k
    · simp only [removeKey, List.filter_cons]
      rw [if_neg (by simp [hk])]
      rw [show getKey ((k1, v1) :: rest) k' = getKey rest k' by
        rw [getKey, if_neg (fun hh : k1 = k' => h (hh ▸ hk ▸ rfl))]]
      exact ih
    · simp only [removeKey, List.filter_cons]
      rw [if_pos (by simp [hk])]
      by_cases hk' : k1 = k'
      · rw [getKey, if_pos hk', getKey, if_pos hk']
      · rw [getKey, if_neg hk', getKey, if_neg hk']
        exact ih

theorem stepTextPosition_ok_getKey (ff ff' : FormatField) (k : String)
    (hstep : stepTextPosition ff = Except.ok ff') (h : k ≠ "text-position") :
    getKey ff' k = getKey ff k := by
  rw [stepTextPosition] at hstep
  split at hstep
  · injection hstep with h'
    rw [← h']
  · split at hstep
    · cases hstep
    · injection hstep with h'
      rw [← h']
      exact getKey_setKey_other ff "text-position" _ k h
  · cases hstep

theorem stepFontName_getKey (ff : FormatField) (k : String) (h : k ≠ "font-name") :
    getKey (stepFontName ff) k = getKey ff k := by
  rw [stepFontName]
  split
  · rfl
  · exact getKey_setKey_other ff "font-name" _ k h

theorem stepFontSize_getKey (ff : FormatField) (k : String) (h : k ≠ "font-size") :
    getKey (stepFontSize ff) k = getKey ff k := by
  rw [stepFontSize]
  split
  · rfl
  · exact getKey_setKey_other ff "font-size" _ k h

theorem stepItalic_getKey (ff : FormatField) (k : String) (h : k ≠ "italic") :
    getKey (stepItalic ff) k = getKey ff k := by
  rw [stepItalic]
  split
  · rfl
  · exact getKey_setKey_other ff "italic" _ k h

theorem stepStrikethrough_getKey (ff : FormatField) (k : String) (h : k ≠ "strikethrough") :
    getKey (stepStrikethrough ff) k = getKey ff k := by
  rw [stepStrikethrough]
  split
  · rfl
  · exact getKey_setKey_other ff "strikethrough" _ k h

theorem stepUnderline_getKey (ff : FormatField) (k : String)
    (h1 : k ≠ "underline") (h2 : k ≠ "invalid-spelling") :
    getKey (stepUnderline ff) k = getKey ff k := by
  rw [stepUnderline]
  split
  · rfl
  · split
    · exact getKey_setKey_other ff "invalid-spelling" _ k h2
    · exact getKey_setKey_other ff "underline" _ k h1

theorem stepBold_ok_getKey (ff ff' : FormatField) (k : String)
    (hstep : stepBold ff = Except.ok ff') (h : k ≠ "bold") :
    getKey ff' k = getKey ff k := by
  rw [stepBold] at hstep
  split at hstep
  · injection hstep with h'
    rw [← h']
  · split at hstep
    · cases hstep
    · injection hstep with h'
      rw [← h']
      exact getKey_setKey_other ff "bold" _ k h
  · cases hstep

theorem stepColor_ok_getKey (ff ff' : FormatField) (k : String)
    (hstep : stepColor ff = Except.ok ff') (h1 : k ≠ "color") (h2 : k ≠ "CharColor") :
    getKey ff' k = getKey ff k := by
  rw [stepColor] at hstep
  split at hstep
  · injection hstep with h'
    rw [← h']
  · split at hstep
    · split at hstep
      · injection hstep with h'
        rw [← h']
        rw [getKey_setKey_other _ "color" _ k h1]
        exact getKey_removeKey_other ff "CharColor" k h2
      · cases hstep
    · injection hstep with h'
      rw [← h']
      exact getKey_removeKey_other ff "CharColor" k h2

theorem stepBackColor_ok_getKey (ff ff' : FormatField) (k : String)
    (hstep : stepBackColor ff = Except.ok ff') (h1 : k ≠ "background-color")
    (h2 : k ≠ "CharBackColor") :
    getKey ff' k = getKey ff k := by
  rw [stepBackColor] at hstep
  split at hstep
  · injection hstep with h'
    rw [← h']
  · split at hstep
    · split at hstep
      · injection hstep with h'
        rw [← h']
        rw [getKey_setKey_other _ "background-color" _ k h1]
        exact getKey_removeKey_other ff "CharBackColor" k h2
      · cases hstep
    · injection hstep with h'
      rw [← h']
      exact getKey_removeKey_other ff "CharBackColor" k h2

theorem stepLink_getKey (ff : FormatField) (st : TextObjState) (offset : Nat) (k : String)
    (h : k ≠ "link") : getKey (stepLink ff st offset) k = getKey ff k := by
  rw [stepLink]
  split
  · rfl
  · split
    · exact getKey_setKey_other ff "link" _ k h
    · rfl

theorem stepNumbering_ok_getKey (ff ff' : FormatField) (offset : Nat) (k : String)
    (hstep : stepNumbering ff offset = Except.ok ff') (h : k ≠ "line-prefix") :
    getKey ff' k = getKey ff k := by
  rw [stepNumbering] at hstep
  split at hstep
  · split at hstep
    · injection hstep with h'
      rw [← h']
    · split at hstep
      · split at hstep
        · injection hstep with h'
          rw [← h']
          exact getKey_setKey_other ff "line-prefix" _ k h
        · cases hstep
      · injection hstep with h'
        rw [← h']
  · injection hstep with h'
    rw [← h']

theorem stepDocAttribs_getKey (ff : FormatField) (st : TextObjState) (k : String)
    (h1 : k ≠ "page-number") (h2 : k ≠ "line-number") :
    getKey (stepDocAttribs ff st) k = getKey ff k := by
  rw [stepDocAttribs]
  split
  · split
    · rfl
    · split
      · split
        · rw [getKey_setKey_other _ "line-number" _ k h2]
          exact getKey_setKey_other ff "page-number" _ k h1
        · exact getKey_setKey_other ff "page-number" _ k h1
      · split
        · exact getKey_setKey_other ff "line-number" _ k h2
        · rfl
  · rfl

theorem stepBold_weight_ok (ff : FormatField) (s : String) (q : ℚ)
    (hg : getKey ff "CharWeight" = some (FVal.str s)) (hq : pyFloat s = some q) :
    stepBold ff = Except.ok (setKey ff "bold" (FVal.bool (decide (100 < q)))) := by
  simp only [stepBold, hg, hq]

theorem stepBold_weight_err (ff : FormatField) (s : String)
    (hg : getKey ff "CharWeight" = some (FVal.str s)) (hq : pyFloat s = Option.none) :
    stepBold ff = Except.error () := by
  simp only [stepBold, hg, hq]

theorem stepTextPosition_esc_err (ff : FormatField) (s : String)
    (hg : getKey ff "CharEscapement" = some (FVal.str s)) (hq : pyInt s = Option.none) :
    stepTextPosition ff = Except.error () := by
  simp only [stepTextPosition, hg, hq]

theorem stepUnderline_some (ff : FormatField) (u : FVal)
    (hg : getKey ff "CharUnderline" = some u) :
    stepUnderline ff = if u = FVal.str "10" then setKey ff "invalid-spelling" (FVal.bool true)
      else setKey ff "underline" (FVal.bool (decide (u ≠ FVal.str "0"))) := by
  simp only [stepUnderline, hg]

theorem stepColor_ok_CharColor (ff ff' : FormatField)
    (hstep : stepColor ff = Except.ok ff') : getKey ff' "CharColor" = Option.none := by
  rw [stepColor] at hstep
  split at hstep
  · rename_i hg
    injection hstep with h'
    rw [← h']
    exact hg
  · split at hstep
    · split at hstep
      · injection hstep with h'
        rw [← h']
        rw [getKey_setKey_other _ "color" _ _ (by decide)]
        exact getKey_removeKey_same ff "CharColor"
      · cases hstep
    · injection hstep with h'
      rw [← h']
      exact getKey_removeKey_same ff "CharColor"

theorem stepBackColor_ok_CharBackColor (ff ff' : FormatField)
    (hstep : stepBackColor ff = Except.ok ff') : getKey ff' "CharBackColor" = Option.none := by
  rw [stepBackColor] at hstep
  split at hstep
  · rename_i hg
    injection hstep with h'
    rw [← h']
    exact hg
  · split at hstep
    · split at hstep
      · injection hstep with h'
        rw [← h']
        rw [getKey_setKey_other _ "background-color" _ _ (by decide)]
        exact getKey_removeKey_same ff "CharBackColor"
      · cases hstep
    · injection hstep with h'
      rw [← h']
      exact getKey_removeKey_same ff "CharBackColor"

theorem derive_ok_elim (m : RawAttrs) (st : TextObjState) (off : Nat) (ff : FormatField)
    (h : deriveFormatField m st off = Except.ok ff) :
    ∃ ff1 ff2 ff3 ff4 ff5,
      stepTextPosition (rawToFF m) = Except.ok ff1 ∧
      stepBold (stepUnderline (stepStrikethrough (stepItalic (stepFontSize (stepFontName ff1)))))
        = Except.ok ff2 ∧
      stepColor ff2 = Except.ok ff3 ∧
      stepBackColor ff3 = Except.ok ff4 ∧
      stepNumbering (stepLink ff4 st off) off = Except.ok ff5 ∧
      ff = stepDocAttribs ff5 st := by
  rw [deriveFormatField] at h
  split at h
  · cases h
  · rename_i ff1 h1
    split at h
    · cases h
    · rename_i ff2 h2
      split at h
      · cases h
      · rename_i ff3 h3
        split at h
        · cases h
        · rename_i ff4 h4
          split at h
          · cases h
          · rename_i ff5 h5
            injection h with h'
            exact ⟨ff1, ff2, ff3, ff4, ff5, h1, h2, h3, h4, h5, h'.symm⟩

theorem pureChain_getKey (ff : FormatField) (k : String)
    (h2 : k ≠ "font-name") (h3 : k ≠ "font-size") (h4 : k ≠ "italic")
    (h5 : k ≠ "strikethrough") (h6 : k ≠ "underline") (h7 : k ≠ "invalid-spelling") :
    getKey (stepUnderline (stepStrikethrough (stepItalic (stepFontSize (stepFontName ff))))) k
      = getKey ff k := by
  rw [stepUnderline_getKey _ _ h6 h7, stepStrikethrough_getKey _ _ h5,
    stepItalic_getKey _ _ h4, stepFontSize_getKey _ _ h3, stepFontName_getKey _ _ h2]

theorem tailChain_getKey (ff2 ff3 ff4 ff5 : FormatField) (st : TextObjState) (off : Nat)
    (k : String)
    (h3 : stepColor ff2 = Except.ok ff3) (h4 : stepBackColor ff3 = Except.ok ff4)
    (h5 : stepNumbering (stepLink ff4 st off) off = Except.ok ff5)
    (hc : k ≠ "color") (hcc : k ≠ "CharColor") (hb : k ≠ "background-color")
    (hcb : k ≠ "CharBackColor") (hl : k ≠ "link") (hp : k ≠ "line-prefix")
    (hpn : k ≠ "page-number") (hln : k ≠ "line-number") :
    getKey (stepDocAttribs ff5 st) k = getKey ff2 k := by
  rw [stepDocAttribs_getKey _ _ _ hpn hln,
    stepNumbering_ok_getKey _ _ _ _ h5 hp, stepLink_getKey _ _ _ _ hl,
    stepBackColor_ok_getKey _ _ _ h4 hb hcb, stepColor_ok_getKey _ _ _ h3 hc hcc]

/-- Claim C2 counterexample: the derivation of `{CharWeight: "90"}` puts a
`bold` key with value `false` into the output (source line 137 assigns
`formatField["bold"]` unconditionally when `CharWeight` is present), while
the claim says the `bold` key is omitted for weights not exceeding 100. -/
theorem c2_counterexample :
    deriveFormatField [("CharWeight", AttrVal.str "90")] st0 1 =
      Except.ok [("CharWeight", FVal.str "90"), ("bold", FVal.bool false)] ∧
    getKey [("CharWeight", FVal.str "90"), ("bold", FVal.bool false)] "bold"
      = some (FVal.bool false) :=
  ⟨by rfl, by rfl⟩

/-- Claim C2 as amended: whenever the raw mapping holds a numeric weight
string, the derivation (when it succeeds) sets `bold` to `weight > 100`:
`true` for weights above 100 and `false` (key present, not omitted)
otherwise. -/
theorem c2_bold_always_set :
    ∀ (m : RawAttrs) (st : TextObjState) (off : Nat) (ff : FormatField) (s : String) (q : ℚ),
      deriveFormatField m st off = Except.ok ff →
      getKey (rawToFF m) "CharWeight" = some (FVal.str s) →
      pyFloat s = some q →
      getKey ff "bold" = some (FVal.bool (decide (100 < q))) := by
  intro m st off ff s q h hg hq
  obtain ⟨ff1, ff2, ff3, ff4, ff5, h1, h2, h3, h4, h5, hff⟩ := derive_ok_elim m st off ff h
  have hcw : getKey (stepUnderline (stepStrikethrough (stepItalic (stepFontSize
      (stepFontName ff1))))) "CharWeight" = some (FVal.str s) := by
    rw [pureChain_getKey _ _ (by decide) (by decide) (by decide) (by decide) (by decide)
      (by decide), stepTextPosition_ok_getKey _ _ _ h1 (by decide), hg]
  rw [stepBold_weight_ok _ s q hcw hq] at h2
  injection h2 with h2'
  subst hff
  rw [tailChain_getKey ff2 ff3 ff4 ff5 st off "bold" h3 h4 h5 (by decide) (by decide)
    (by decide) (by decide) (by decide) (by decide) (by decide) (by decide)]
  rw [← h2']
  exact getKey_setKey_same _ "bold" _

/-- Witness for the amended C2 at the concrete mapping `{CharWeight: "150"}`. -/
theorem c2_bold_always_set_witness :
    getKey [("CharWeight", FVal.str "150"), ("bold", FVal.bool true)] "bold"
      = some (FVal.bool (decide ((100 : ℚ) < 150))) :=
  c2_bold_always_set [("CharWeight", AttrVal.str "150")] st0 1
    [("CharWeight", FVal.str "150"), ("bold", FVal.bool true)] "150" 150
    (by rfl) (by rfl) (by decide)

/-- Claim C3 counterexample: a present but non-numeric `CharWeight` aborts
the whole derivation (Python `float` raises `ValueError`, which the
`except KeyError` handler of source lines 136-139 does not catch), while
the claim says the parse returns normally with `bold` omitted. -/
theorem c3_counterexample :
    deriveFormatField [("CharWeight", AttrVal.str "not-a-number")] st0 1 =
      Except.error () := by rfl

/-- Claim C3 as amended: a MISSING numeric key is skipped silently, but a
present, non-numeric `CharWeight` or `CharEscapement` raises `ValueError`
and aborts the whole parse; a non-numeric `CharHeight` does not abort and
is formatted verbatim into `font-size`. -/
theorem c3_malformed_numeric_fatal :
    (∀ (m : RawAttrs) (st : TextObjState) (off : Nat) (s : String),
      getKey (rawToFF m) "CharWeight" = some (FVal.str s) → pyFloat s = Option.none →
      deriveFormatField m st off = Except.error ())
    ∧ (∀ (m : RawAttrs) (st : TextObjState) (off : Nat) (s : String),
      getKey (rawToFF m) "CharEscapement" = some (FVal.str s) → pyInt s = Option.none →
      deriveFormatField m st off = Except.error ())
    ∧ (deriveFormatField [("CharHeight", AttrVal.str "not-a-number")] st0 1).map
        (fun ff => getKey ff "font-size") = Except.ok (some (FVal.str "not-a-numberpt")) := by
  refine ⟨?_, ?_, by rfl⟩
  · intro m st off s hg hq
    rw [deriveFormatField]
    split
    · rfl
    · rename_i ff1 h1
      have hcw : getKey (stepUnderline (stepStrikethrough (stepItalic (stepFontSize
          (stepFontName ff1))))) "CharWeight" = some (FVal.str s) := by
        rw [pureChain_getKey _ _ (by decide) (by decide) (by decide) (by decide) (by decide)
          (by decide), stepTextPosition_ok_getKey _ _ _ h1 (by decide), hg]
      rw [stepBold_weight_err _ s hcw hq]
  · intro m st off s hg hq
    rw [deriveFormatField]
    split
    · rfl
    · rename_i ff1 h1
      rw [stepTextPosition_esc_err _ s hg hq] at h1
      cases h1

/-- Witness for the amended C3 at the concrete mapping `{CharEscapement: "x"}`. -/
theorem c3_malformed_numeric_fatal_witness :
    deriveFormatField [("CharEscapement", AttrVal.str "x")] st0 0 = Except.error () :=
  c3_malformed_numeric_fatal.2.1 [("CharEscapement", AttrVal.str "x")] st0 0 "x"
    (by rfl) (by rfl)

/-- Claim C4 counterexample: `formatField.update(...)` (source line 98)
copies every raw key into the output: the unrecognized key `Foo` appears
in the output verbatim, and the recognized source key `CharWeight` is
still present under its source name next to the derived `bold`. -/
theorem c4_counterexample :
    (deriveFormatField [("Foo", AttrVal.str "bar")] st0 1).map (fun ff => getKey ff "Foo")
      = Except.ok (some (FVal.str "bar")) ∧
    (deriveFormatField [("CharWeight", AttrVal.str "150")] st0 1).map
      (fun ff => getKey ff "CharWeight") = Except.ok (some (FVal.str "150")) :=
  ⟨by rfl, by rfl⟩

/-- Claim C4 as amended: every raw key survives into the output under its
own name with its raw value, except `CharColor` and `CharBackColor` (which
are popped) and keys that collide with a derived output name; the two
popped source keys are never present in a successful output. -/
theorem c4_raw_keys_copied_through :
    (∀ (m : RawAttrs) (st : TextObjState) (off : Nat) (ff : FormatField) (k : String)
      (v : FVal),
      deriveFormatField m st off = Except.ok ff →
      getKey (rawToFF m) k = some v → k ∉ reservedKeys →
      getKey ff k = some v)
    ∧ (∀ (m : RawAttrs) (st : TextObjState) (off : Nat) (ff : FormatField),
      deriveFormatField m st off = Except.ok ff →
      getKey ff "CharColor" = Option.none ∧ getKey ff "CharBackColor" = Option.none) := by
  constructor
  · intro m st off ff k v h hg hk
    simp only [reservedKeys, List.mem_cons, List.not_mem_nil, or_false, not_or] at hk
    obtain ⟨hk1, hk2, hk3, hk4, hk5, hk6, hk7, hk8, hk9, hk10, hk11, hk12, hk13, hk14,
      hk15, hk16⟩ := hk
    obtain ⟨ff1, ff2, ff3, ff4, ff5, h1, h2, h3, h4, h5, hff⟩ := derive_ok_elim m st off ff h
    subst hff
    rw [tailChain_getKey ff2 ff3 ff4 ff5 st off k h3 h4 h5 hk9 hk15 hk10 hk16 hk11 hk12
      hk13 hk14]
    rw [stepBold_ok_getKey _ _ _ h2 hk8]
    rw [pureChain_getKey _ _ hk2 hk3 hk4 hk5 hk6 hk7]
    rw [stepTextPosition_ok_getKey _ _ _ h1 hk1]
    exact hg
  · intro m st off ff h
    obtain ⟨ff1, ff2, ff3, ff4, ff5, h1, h2, h3, h4, h5, hff⟩ := derive_ok_elim m st off ff h
    subst hff
    constructor
    · rw [stepDocAttribs_getKey _ _ _ (by decide) (by decide),
        stepNumbering_ok_getKey _ _ _ _ h5 (by decide), stepLink_getKey _ _ _ _ (by decide),
        stepBackColor_ok_getKey _ _ _ h4 (by decide) (by decide)]
      exact stepColor_ok_CharColor ff2 ff3 h3
    · rw [stepDocAttribs_getKey _ _ _ (by decide) (by decide),
        stepNumbering_ok_getKey _ _ _ _ h5 (by decide), stepLink_getKey _ _ _ _ (by decide)]
      exact stepBackColor_ok_CharBackColor ff3 ff4 h4

/-- Witness for the amended C4 at the concrete mapping `{Foo: "bar"}`. -/
theorem c4_raw_keys_copied_through_witness :
    getKey [("Foo", FVal.str "bar")] "Foo" = some (FVal.str "bar") :=
  c4_raw_keys_copied_through.1 [("Foo", AttrVal.str "bar")] st0 1 [("Foo", FVal.str "bar")]
    "Foo" (FVal.str "bar") (by rfl) (by rfl) (by decide)

/-- Claim C6: for a raw mapping holding an underline code (and, as for any
mapping produced by the attribute splitter, no key literally named
`underline` or `invalid-spelling`), the output of a successful derivation
has `invalid-spelling = true` and no `underline` key when the code is the
WAVE sentinel "10", and otherwise `underline = (code != "0")` and no
`invalid-spelling` key; the two keys are never both present. -/
theorem c6_underline_exclusive :
    ∀ (m : RawAttrs) (st : TextObjState) (off : Nat) (ff : FormatField) (u : FVal),
      deriveFormatField m st off = Except.ok ff →
      getKey (rawToFF m) "CharUnderline" = some u →
      getKey (rawToFF m) "underline" = Option.none →
      getKey (rawToFF m) "invalid-spelling" = Option.none →
      ((u = FVal.str "10" → getKey ff "invalid-spelling" = some (FVal.bool true) ∧
          getKey ff "underline" = Option.none)
       ∧ (u ≠ FVal.str "10" →
          getKey ff "underline" = some (FVal.bool (decide (u ≠ FVal.str "0"))) ∧
          getKey ff "invalid-spelling" = Option.none)
       ∧ ¬ (getKey ff "underline" ≠ Option.none ∧
            getKey ff "invalid-spelling" ≠ Option.none)) := by
  intro m st off ff u h hg hu hi
  obtain ⟨ff1, ff2, ff3, ff4, ff5, h1, h2, h3, h4, h5, hff⟩ := derive_ok_elim m st off ff h
  have chain : ∀ (k : String), k ≠ "font-name" → k ≠ "font-size" → k ≠ "italic" →
      k ≠ "strikethrough" → k ≠ "text-position" →
      getKey (stepStrikethrough (stepItalic (stepFontSize (stepFontName ff1)))) k
        = getKey (rawToFF m) k := by
    intro k a2 a3 a4 a5 a1
    rw [stepStrikethrough_getKey _ _ a5, stepItalic_getKey _ _ a4,
      stepFontSize_getKey _ _ a3, stepFontName_getKey _ _ a2,
      stepTextPosition_ok_getKey _ _ _ h1 a1]
  have hgu : getKey (stepStrikethrough (stepItalic (stepFontSize (stepFontName ff1))))
      "CharUnderline" = some u := by
    rw [chain _ (by decide) (by decide) (by decide) (by decide) (by decide), hg]
  have hu0 : getKey (stepStrikethrough (stepItalic (stepFontSize (stepFontName ff1))))
      "underline" = Option.none := by
    rw [chain _ (by decide) (by decide) (by decide) (by decide) (by decide), hu]
  have hi0 : getKey (stepStrikethrough (stepItalic (stepFontSize (stepFontName ff1))))
      "invalid-spelling" = Option.none := by
    rw [chain _ (by decide) (by decide) (by decide) (by decide) (by decide), hi]
  have hsu := stepUnderline_some _ u hgu
  subst hff
  have hfin : ∀ (k : String), k ≠ "bold" → k ≠ "color" → k ≠ "CharColor" →
      k ≠ "background-color" → k ≠ "CharBackColor" → k ≠ "link" → k ≠ "line-prefix" →
      k ≠ "page-number" → k ≠ "line-number" →
      getKey (stepDocAttribs ff5 st) k =
        getKey (stepUnderline (stepStrikethrough (stepItalic (stepFontSize
          (stepFontName ff1))))) k := by
    intro k b1 b2 b3 b4 b5 b6 b7 b8 b9
    rw [tailChain_getKey ff2 ff3 ff4 ff5 st off k h3 h4 h5 b2 b3 b4 b5 b6 b7 b8 b9]
    exact stepBold_ok_getKey _ _ _ h2 b1
  have hfu : getKey (stepDocAttribs ff5 st) "underline"
      = getKey (stepUnderline (stepStrikethrough (stepItalic (stepFontSize
        (stepFontName ff1))))) "underline" :=
    hfin _ (by decide) (by decide) (by decide) (by decide) (by decide) (by decide)
      (by decide) (by decide) (by decide)
  have hfi : getKey (stepDocAttribs ff5 st) "invalid-spelling"
      = getKey (stepUnderline (stepStrikethrough (stepItalic (stepFontSize
        (stepFontName ff1))))) "invalid-spelling" :=
    hfin _ (by decide) (by decide) (by decide) (by decide) (by decide) (by decide)
      (by decide) (by decide) (by decide)
  by_cases h10 : u = FVal.str "10"
  · have e1 : getKey (stepUnderline (stepStrikethrough (stepItalic (stepFontSize
        (stepFontName ff1))))) "invalid-spelling" = some (FVal.bool true) := by
      rw [hsu, if_pos h10]
      exact getKey_setKey_same _ "invalid-spelling" _
    have e2 : getKey (stepUnderline (stepStrikethrough (stepItalic (stepFontSize
        (stepFontName ff1))))) "underline" = Option.none := by
      rw [hsu, if_pos h10, getKey_setKey_other _ _ _ _ (by decide)]
      exact hu0
    refine ⟨fun _ => ⟨hfi.trans e1, hfu.trans e2⟩, fun hne => absurd h10 hne, ?_⟩
    rintro ⟨ha, -⟩
    exact ha (hfu.trans e2)
  · have e1 : getKey (stepUnderline (stepStrikethrough (stepItalic (stepFontSize
        (stepFontName ff1))))) "underline"
        = some (FVal.bool (decide (u ≠ FVal.str "0"))) := by
      rw [hsu, if_neg h10]
      exact getKey_setKey_same _ "underline" _
    have e2 : getKey (stepUnderline (stepStrikethrough (stepItalic (stepFontSize
        (stepFontName ff1))))) "invalid-spelling" = Option.none := by
      rw [hsu, if_neg h10, getKey_setKey_other _ _ _ _ (by decide)]
      exact hi0
    refine ⟨fun heq => absurd heq h10, fun _ => ⟨hfu.trans e1, hfi.trans e2⟩, ?_⟩
    rintro ⟨-, hb⟩
    exact hb (hfi.trans e2)

/-- Witness for C6 at the concrete mapping `{CharUnderline: "10"}`. -/
theorem c6_underline_exclusive_witness :
    getKey [("CharUnderline", FVal.str "10"), ("invalid-spelling", FVal.bool true)]
      "invalid-spelling" = some (FVal.bool true) ∧
    getKey [("CharUnderline", FVal.str "10"), ("invalid-spelling", FVal.bool true)]
      "underline" = Option.none :=
  (c6_underline_exclusive [("CharUnderline", AttrVal.str "10")] st0 1
    [("CharUnderline", FVal.str "10"), ("invalid-spelling", FVal.bool true)]
    (FVal.str "10") (by rfl) (by rfl) (by rfl) (by rfl)).1 rfl

/-- Claim C9: when the raw attribute string at the queried offset is empty
and the offset is positive, the method resolves the previous offset's
attribute string and feeds it to all derivations, so the returned format
field is the one derived from the previous offset's attributes (in the
current offset's context), paired with the current call's start/end
offsets. -/
theorem c9_empty_attrs_fallback :
    ∀ (st : TextObjState) (off : Nat) (s e ps pe : Int) (prev : RawAttrs),
      0 < off →
      st.attributes off = Except.ok (s, e, []) →
      st.attributes (off - 1) = Except.ok (ps, pe, prev) →
      getFormatFieldAndOffsets st off
        = (deriveFormatField prev st off).map (fun ff => (ff, s, e)) := by
  intro st off s e ps pe prev hoff hcur hprev
  rw [getFormatFieldAndOffsets, hcur]
  simp only [List.isEmpty_nil, decide_eq_true hoff, Bool.and_self, if_true, hprev]

/-- Witness for C9 on a concrete object state whose run at offset 1 is the
empty attribute string. -/
theorem c9_empty_attrs_fallback_witness :
    getFormatFieldAndOffsets st9 1
      = (deriveFormatField [("CharFontName", AttrVal.str "F")] st9 1).map
          (fun ff => (ff, 1, 2)) :=
  c9_empty_attrs_fallback st9 1 1 2 5 9 [("CharFontName", AttrVal.str "F")]
    (by decide) (by rfl) (by rfl)

/-- Claim C10: `getSelectedItemsCount` always returns an integer ≥ 1: the
platform-reported count when that count is positive, and 1 both when the
reported count is zero (or negative) and when the COM query fails; the
error is never propagated (the function is total into `Int`). -/
theorem c10_selected_count_ge_one :
    ∀ r : Except Unit Int,
      1 ≤ getSelectedItemsCount r
      ∧ (∀ c : Int, r = Except.ok c → 0 < c → getSelectedItemsCount r = c)
      ∧ (r = Except.ok 0 → getSelectedItemsCount r = 1)
      ∧ (r = Except.error () → getSelectedItemsCount r = 1) := by
  intro r
  refine ⟨?_, ?_, ?_, ?_⟩
  · cases r with
    | error e => simp [getSelectedItemsCount]
    | ok c =>
      rw [getSelectedItemsCount]
      split
      · rename_i hpos
        omega
      · exact le_refl 1
  · intro c hc hpos
    subst hc
    rw [getSelectedItemsCount, if_pos hpos]
  · intro hc
    subst hc
    rfl
  · intro hc
    subst hc
    rfl

/-- Witness for C10 at a positive reported count. -/
theorem c10_selected_count_ge_one_witness :
    getSelectedItemsCount (Except.ok 5) = 5 ∧ 1 ≤ getSelectedItemsCount (Except.ok 5) :=
  ⟨(c10_selected_count_ge_one (Except.ok 5)).2.1 5 rfl (by decide),
   (c10_selected_count_ge_one (Except.ok 5)).1⟩
